import Mathlib

/-!
Verification development for the passing-network engine of the
Football_PassNets repository (`src/net_analysis.py`).

Embedding conventions:
* A `PassEvent` models one row of the filtered `pass_data` frame produced by
  lines 14-18 of `net_analysis.py` (completed passes of the analysed team in
  the selected phase, with both player identities already reduced to their
  surname tokens).  The claims under study quantify over this filtered event
  collection, so the upstream pandas filter itself carries no content here.
* Python floats are modelled by exact rationals (`ℚ`); `round` / `np.round`
  are modelled by exact round-half-to-even at the requested number of decimal
  places, and Python `int(...)` by truncation toward zero.
* A networkx `MultiDiGraph` is modelled by its node list, its edge-record
  list (each record carrying the `Intensity` and `Distance` attributes) and a
  node-attribute map.  `nx.set_node_attributes(G, d, name)` writes the single
  attribute `name` for exactly the keys of `d`, which for every call in the
  source is the node set of the graph.
* `nx.to_numpy_array(G, weight=w)` reads each matrix entry as the sum over
  parallel edges of the edge datum `w` (defaulting to 1 when the attribute is
  absent); `adjW` below is that entry.
* `nx.harmonic_centrality` and `nx.betweenness_centrality` are external
  library calls; they are modelled by executable definitions following their
  documented semantics, which the specification restates in section 4.2:
  harmonic closeness sums reciprocal shortest-path distances from every other
  node, and normalized betweenness accumulates per ordered pair the fraction
  of shortest paths through the node, scaled by 1/((n-1)(n-2)) for n > 2.
  Shortest paths are Dijkstra paths; with the positive edge distances this
  pipeline produces they coincide with the fuel-bounded minima used below.
-/

namespace PassNets

/-- Round-half-to-even on exact rationals, the tie-breaking rule used by both
Python `round` and `np.round`. -/
def roundHE (q : ℚ) : ℤ :=
  if q - ⌊q⌋ < 1 / 2 then ⌊q⌋
  else if 1 / 2 < q - ⌊q⌋ then ⌊q⌋ + 1
  else if ⌊q⌋ % 2 = 0 then ⌊q⌋ else ⌊q⌋ + 1

/-- Python / numpy `round(q, d)`, on exact rationals. -/
def roundTo (d : ℕ) (q : ℚ) : ℚ := (roundHE (q * 10 ^ d) : ℚ) / 10 ^ d

/-- Python `int(...)` applied to a real value: truncation toward zero. -/
def truncQ (q : ℚ) : ℤ := if 0 ≤ q then ⌊q⌋ else ⌈q⌉

/-- One filtered pass event: passer and receiver identity tokens, origin
coordinates `(x, y)` and destination coordinates `(endx, endy)`. -/
structure PassEvent where
  passer : String
  receiver : String
  x : ℚ
  y : ℚ
  endx : ℚ
  endy : ℚ
  deriving DecidableEq

/-- A node attribute value: either a number (strength / centrality) or an
average-position pair. -/
inductive AttrVal where
  | num (q : ℚ)
  | pos (x y : ℚ)
  deriving DecidableEq

/-- One aggregated edge of the passing network, with its `Intensity` and
`Distance` attributes. -/
structure Edge where
  src : String
  dst : String
  intensity : ℕ
  distance : ℚ
  deriving DecidableEq

/-- The networkx graph: node list, edge-record list, node-attribute map
(`attr name node`). -/
structure Graph where
  nodes : List String
  edges : List Edge
  attr : String → String → Option AttrVal

/-- The ordered (passer, receiver) key of an event, the grouping key of
`pass_data.groupby(["player_name", "pass_recipient_name"])`. -/
def pairKey (e : PassEvent) : String × String := (e.passer, e.receiver)

/-- The list of grouping keys of all events. -/
def pairList (evs : List PassEvent) : List (String × String) :=
  evs.map pairKey

/-- Group size of the groupby: the number of events from `p` to `r`
(the `Intensity` column of `pass_net_edgelist`, lines 20-25). -/
def intensity (evs : List PassEvent) (p r : String) : ℕ :=
  (evs.filter (fun e => e.passer = p ∧ e.receiver = r)).length

/-- The distinct ordered pairs occurring among the events: the rows of the
edge list after the groupby. -/
def edgeKeys (evs : List PassEvent) : List (String × String) :=
  (pairList evs).dedup

/-- The quantity `round(1 / intensity, 4) * 10000`, the edge `Distance` set on lines
53-58 of `net_analysis.py`. -/
def distanceOf (i : ℕ) : ℚ := roundTo 4 (1 / (i : ℚ)) * 10000

/-- The aggregated edge records of `nx.from_pandas_edgelist`, with the
`Distance` attribute attached per edge. -/
def buildEdges (evs : List PassEvent) : List Edge :=
  (edgeKeys evs).map
    (fun k => ⟨k.1, k.2, intensity evs k.1 k.2, distanceOf (intensity evs k.1 k.2)⟩)

/-- The node set of the built graph: every identity occurring as the source
or the target of some edge row, i.e. as passer or receiver of some event. -/
def nodeKeys (evs : List PassEvent) : List String :=
  ((pairList evs).map Prod.fst ++ (pairList evs).map Prod.snd).dedup

/-- The x-axis coordinate samples of a player: origins of events it passes,
destinations of events it receives (lines 40-45). -/
def samplesX (evs : List PassEvent) (p : String) : List ℚ :=
  (evs.filter (fun e => e.passer = p)).map (fun e => e.x)
    ++ (evs.filter (fun e => e.receiver = p)).map (fun e => e.endx)

/-- The y-axis coordinate samples of a player (lines 41-46). -/
def samplesY (evs : List PassEvent) (p : String) : List ℚ :=
  (evs.filter (fun e => e.passer = p)).map (fun e => e.y)
    ++ (evs.filter (fun e => e.receiver = p)).map (fun e => e.endy)

/-- Arithmetic mean (`np.mean`) of a list of rationals. -/
def meanQ (l : List ℚ) : ℚ := l.sum / (l.length : ℚ)

/-- Per-axis average position, rounded to 2 decimals (lines 45-46). -/
def avgX (evs : List PassEvent) (p : String) : ℚ := roundTo 2 (meanQ (samplesX evs p))

/-- Per-axis average position, rounded to 2 decimals (lines 45-46). -/
def avgY (evs : List PassEvent) (p : String) : ℚ := roundTo 2 (meanQ (samplesY evs p))

/-- The graph-construction part of `get_passing_data` (lines 19-58): aggregated
edges with `Intensity` and `Distance`, nodes from the edge list, and the
`"Avg Pos"` node attribute. -/
def buildGraph (evs : List PassEvent) : Graph :=
  { nodes := nodeKeys evs
    edges := buildEdges evs
    attr := fun a v =>
      if a = "Avg Pos" ∧ v ∈ nodeKeys evs then some (.pos (avgX evs v) (avgY evs v))
      else none }

/-- The weight an edge contributes under a named weight attribute, as read by
`nx.to_numpy_array` / Dijkstra: the named attribute if the edge carries it,
else the default 1.  Built edges carry exactly `Intensity` and `Distance`. -/
def edgeWeight (w : String) (e : Edge) : ℚ :=
  if w = "Intensity" then (e.intensity : ℚ)
  else if w = "Distance" then e.distance
  else 1

/-- Adjacency-matrix entry `adj[u][v]`: sum of weights of the (parallel)
edges from `u` to `v`. -/
def adjW (g : Graph) (w : String) (u v : String) : ℚ :=
  (((g.edges.filter (fun e => e.src = u)).filter (fun e => e.dst = v)).map
    (edgeWeight w)).sum

/-- Total intensity of the edges leaving `v` (proof infrastructure). -/
def natOutSum (g : Graph) (v : String) : ℕ :=
  ((g.edges.filter (fun e => e.src = v)).map (fun e => e.intensity)).sum

/-- Total intensity of the edges entering `v` (proof infrastructure). -/
def natInSum (g : Graph) (v : String) : ℕ :=
  ((g.edges.filter (fun e => e.dst = v)).map (fun e => e.intensity)).sum

/-- Column sum of the adjacency matrix: `sum(adj_matrix[:, idx])`. -/
def inQ (g : Graph) (w : String) (v : String) : ℚ :=
  (g.nodes.map (fun u => adjW g w u v)).sum

/-- Row sum of the adjacency matrix: `sum(adj_matrix[idx])`. -/
def outQ (g : Graph) (w : String) (v : String) : ℚ :=
  (g.nodes.map (fun u => adjW g w v u)).sum

/-- The exact (pre-`int`) strength of a node for the given direction value,
following the `if/elif/else` dispatch of lines 82-90: any direction other
than `"in"` and `"out"` (including `None`) takes the `else` branch. -/
def rawStrength (g : Graph) (d : Option String) (w v : String) : ℚ :=
  if d = some "in" then inQ g w v
  else if d = some "out" then outQ g w v
  else inQ g w v + outQ g w v

/-- The attribute name chosen by the same dispatch. -/
def strengthName (d : Option String) : String :=
  if d = some "in" then "In-Strength"
  else if d = some "out" then "Out-Strength"
  else "Strength"

/-- The stored strength value: `int(...)` of the matrix sum. -/
def strengthVal (g : Graph) (d : Option String) (w v : String) : ℤ :=
  truncQ (rawStrength g d w v)

/-- Model of `nx.set_node_attributes(G, values, name)` where `values` is keyed by the
nodes of `G`: writes the single attribute `name` at exactly those nodes. -/
def setNodeAttrs (g : Graph) (aname : String) (f : String → AttrVal) : Graph :=
  { g with attr := fun a v => if a = aname ∧ v ∈ g.nodes then some (f v) else g.attr a v }

/-- Model of `node_strength` (lines 62-93).  On a graph with no nodes the per-node
loop never runs, so the local variable `name` is unbound at the
`nx.set_node_attributes` call and the function raises `UnboundLocalError`;
this failure is modelled by `none`. -/
def nodeStrength (g : Graph) (d : Option String) (w : String) : Option Graph :=
  if g.nodes = [] then none
  else some (setNodeAttrs g (strengthName d)
    (fun v => .num ((strengthVal g d w v : ℤ) : ℚ)))

/-- Minimum of two optional distances (`none` = unreachable). -/
def optMin : Option ℚ → Option ℚ → Option ℚ
  | none, b => b
  | some a, none => some a
  | some a, some b => some (min a b)

/-- Minimum of a list of optional distances. -/
def listMin (l : List (Option ℚ)) : Option ℚ := l.foldr optMin none

/-- Least total weight of a walk of at most `fuel` edges from `u` to `v`.
With positive weights (the case for the `Distance` attribute this pipeline
produces) and fuel at least `n - 1` this is the Dijkstra shortest-path
distance. -/
def distFuel (es : List Edge) (dattr : String) : ℕ → String → String → Option ℚ
  | 0, u, v => if u = v then some 0 else none
  | k + 1, u, v =>
      listMin ((if u = v then some 0 else none) ::
        (es.filter (fun e => e.src = u)).map
          (fun e => (distFuel es dattr k e.dst v).map (fun dd => edgeWeight dattr e + dd)))

/-- Shortest-path distance from `u` to `v` under the named distance
attribute. -/
def sdist (g : Graph) (dattr : String) (u v : String) : Option ℚ :=
  distFuel g.edges dattr g.nodes.length u v

/-- Model of `nx.harmonic_centrality(G, distance=dattr)` at node `v`: the sum over the
other nodes `u` of the reciprocal shortest-path distance from `u` to `v`,
unreachable nodes contributing 0. -/
def harmonic (g : Graph) (dattr : String) (v : String) : ℚ :=
  ((g.nodes.filter (fun u => u ≠ v)).map
    (fun u =>
      match sdist g dattr u v with
      | none => 0
      | some dd => 1 / dd)).sum

/-- All simple paths from `u` to `v` avoiding the visited set, with their
total weights; the fuel bounds the number of edges. -/
def spathsAux (es : List Edge) (dattr : String) :
    ℕ → String → String → List String → List (List String × ℚ)
  | 0, u, v, _ => if u = v then [([u], 0)] else []
  | k + 1, u, v, vis =>
      if u = v then [([u], (0 : ℚ))]
      else
        (es.filter (fun e => e.src = u ∧ e.dst ∉ vis)).flatMap
          (fun e => (spathsAux es dattr k e.dst v (e.dst :: vis)).map
            (fun pw => (u :: pw.1, edgeWeight dattr e + pw.2)))

/-- All simple paths from `u` to `v` with their weights. -/
def spaths (g : Graph) (dattr : String) (u v : String) : List (List String × ℚ) :=
  spathsAux g.edges dattr g.nodes.length u v [u]

/-- Least weight among a list of weighted paths. -/
def minWeight (l : List (List String × ℚ)) : Option ℚ :=
  listMin (l.map (fun pw => some pw.2))

/-- Number of shortest paths in a weighted path list. -/
def countShort (l : List (List String × ℚ)) : ℕ :=
  match minWeight l with
  | none => 0
  | some m => (l.filter (fun pw => pw.2 = m)).length

/-- Number of shortest paths in the list passing through `v`. -/
def countShortVia (l : List (List String × ℚ)) (v : String) : ℕ :=
  match minWeight l with
  | none => 0
  | some m => (l.filter (fun pw => pw.2 = m ∧ v ∈ pw.1)).length

/-- The fraction of shortest `s`-`t` paths through `v` (0 when `t` is
unreachable from `s`). -/
def pairShare (g : Graph) (dattr : String) (s t v : String) : ℚ :=
  if countShort (spaths g dattr s t) = 0 then 0
  else (countShortVia (spaths g dattr s t) v : ℚ) / (countShort (spaths g dattr s t) : ℚ)

/-- Unnormalized betweenness: the Brandes accumulation over ordered pairs of
distinct nodes, both different from `v`. -/
def betweennessRaw (g : Graph) (dattr : String) (v : String) : ℚ :=
  (g.nodes.map (fun s =>
    (g.nodes.map (fun t =>
      if s ≠ t ∧ s ≠ v ∧ t ≠ v then pairShare g dattr s t v else 0)).sum)).sum

/-- Model of `nx.betweenness_centrality(G, normalized=True, weight=dattr)` at `v`:
for a directed graph on `n > 2` nodes the accumulation is scaled by
`1/((n-1)(n-2))`, otherwise left as is. -/
def betweenness (g : Graph) (dattr : String) (v : String) : ℚ :=
  if 2 < g.nodes.length then
    betweennessRaw g dattr v / (((g.nodes.length : ℚ) - 1) * ((g.nodes.length : ℚ) - 2))
  else betweennessRaw g dattr v

/-- Model of `G.reverse(copy=True)`: same nodes and node attributes, every edge
swapped with its attribute data kept. -/
def gReverse (g : Graph) : Graph :=
  { g with edges := g.edges.map (fun e => { e with src := e.dst, dst := e.src }) }

/-- Model of `distance_centralities` (lines 95-120).  An unrecognized
`centrality_name` leaves the local `centrality_dict` unbound, so the loop on
line 116 raises `UnboundLocalError` before any attribute is written; this
failure is modelled by `none`. -/
def distanceCentralities (g : Graph) (kind dattr : String) : Option Graph :=
  if kind = "Betweenness" then
    some (setNodeAttrs g kind (fun v => .num (roundTo 4 (betweenness g dattr v))))
  else if kind = "In-Harmonic" then
    some (setNodeAttrs g kind (fun v => .num (roundTo 4 (harmonic g dattr v))))
  else if kind = "Out-Harmonic" then
    some (setNodeAttrs g kind (fun v => .num (roundTo 4 (harmonic (gReverse g) dattr v))))
  else none

/-- Numeric value of a stored attribute, 0 when absent. -/
def attrNumOr0 : Option AttrVal → ℚ
  | some (.num q) => q
  | _ => 0

/-- Sum of a numeric node attribute over the nodes of a graph. -/
def sumAttr (g : Graph) (aname : String) : ℚ :=
  (g.nodes.map (fun v => attrNumOr0 (g.attr aname v))).sum

/-- Attribute lookup through the optional result of a metric call. -/
def afterAttr (og : Option Graph) (a v : String) : Option AttrVal :=
  match og with
  | none => none
  | some g => g.attr a v

/-- Scenario A of the specification: three passes P1 to P2 and one back. -/
def evA : List PassEvent :=
  [⟨"P1", "P2", 10, 10, 30, 30⟩, ⟨"P1", "P2", 20, 10, 40, 30⟩,
   ⟨"P1", "P2", 30, 20, 50, 40⟩, ⟨"P2", "P1", 40, 40, 20, 20⟩]

/-- The graph built from scenario A. -/
def gA : Graph := buildGraph evA

/-- A permutation of scenario A. -/
def evA2 : List PassEvent :=
  [⟨"P2", "P1", 40, 40, 20, 20⟩, ⟨"P1", "P2", 30, 20, 50, 40⟩,
   ⟨"P1", "P2", 10, 10, 30, 30⟩, ⟨"P1", "P2", 20, 10, 40, 30⟩]

/-- Three identical passes P1 to P2: one edge of intensity 3. -/
def ev3 : List PassEvent :=
  [⟨"P1", "P2", 0, 0, 1, 1⟩, ⟨"P1", "P2", 0, 0, 1, 1⟩, ⟨"P1", "P2", 0, 0, 1, 1⟩]

/-- A two-node graph whose single edge has the non-integral distance 5/2. -/
def gB : Graph := ⟨["A", "B"], [⟨"A", "B", 1, 5 / 2⟩], fun _ _ => none⟩

/-- The out-strength attribute values `node_strength` computes on `gA`. -/
def fOutA : String → AttrVal :=
  fun v => .num ((strengthVal gA (some "out") "Intensity" v : ℤ) : ℚ)

/-- The betweenness attribute values `distance_centralities` computes on
`gA`. -/
def fBetA : String → AttrVal :=
  fun v => .num (roundTo 4 (betweenness gA "Distance" v))

/-! ## General list lemmas -/

lemma sum_map_zeros {α M : Type} [AddCommMonoid M] (l : List α) :
    (l.map (fun _ => (0 : M))).sum = 0 := by
  induction l with
  | nil => simp
  | cons a l ih => simp [ih]

lemma sum_map_add {α M : Type} [AddCommMonoid M] (l : List α) (f h : α → M) :
    (l.map (fun a => f a + h a)).sum = (l.map f).sum + (l.map h).sum := by
  induction l with
  | nil => simp
  | cons a l ih => simp only [List.map_cons, List.sum_cons, ih]; rw [add_add_add_comm]

lemma sum_map_ite_eq {β M : Type} [DecidableEq β] [AddCommMonoid M]
    (l : List β) (x : β) (c : M) (hnd : l.Nodup) (hx : x ∈ l) :
    (l.map (fun v => if x = v then c else 0)).sum = c := by
  induction l with
  | nil => simp at hx
  | cons a l ih =>
    rcases List.mem_cons.mp hx with h | h
    · subst h
      simp only [List.map_cons, List.sum_cons]
      have hz : (l.map (fun v => if x = v then c else 0)).sum = 0 := by
        apply List.sum_eq_zero
        intro y hy
        obtain ⟨v, hv, rfl⟩ := List.mem_map.mp hy
        rw [if_neg]
        intro h2
        exact (List.nodup_cons.mp hnd).1 (h2 ▸ hv)
      simp [hz]
    · have hne : x ≠ a := by
        intro h2
        exact (List.nodup_cons.mp hnd).1 (h2 ▸ h)
      simp only [List.map_cons, List.sum_cons, if_neg hne, zero_add]
      exact ih (List.nodup_cons.mp hnd).2 h

lemma filter_key_cons_sum {α β M : Type} [DecidableEq β] [AddCommMonoid M]
    (key : α → β) (f : α → M) (e : α) (es : List α) (v : β) :
    (((e :: es).filter (fun x => key x = v)).map f).sum
      = (if key e = v then f e else 0)
        + ((es.filter (fun x => key x = v)).map f).sum := by
  by_cases h : key e = v
  · simp [List.filter_cons, h]
  · simp [List.filter_cons, h]

/-- Partitioning a sum over records by a key ranging over a duplicate-free
list that covers every record. -/
lemma sum_filter_key {α β M : Type} [DecidableEq β] [AddCommMonoid M]
    (key : α → β) (f : α → M) :
    ∀ (es : List α) (l : List β), l.Nodup → (∀ e ∈ es, key e ∈ l) →
      (l.map (fun v => ((es.filter (fun x => key x = v)).map f).sum)).sum
        = (es.map f).sum
  | [], l, _, _ => by simp [sum_map_zeros]
  | e :: es, l, hnd, hmem => by
    simp only [filter_key_cons_sum]
    rw [sum_map_add, List.map_cons, List.sum_cons]
    rw [sum_map_ite_eq l (key e) (f e) hnd (hmem e (List.mem_cons_self e es))]
    rw [sum_filter_key key f es l hnd (fun x hx => hmem x (List.mem_cons_of_mem e hx))]

lemma sum_map_ones {α : Type} (l : List α) : (l.map (fun _ => (1 : ℕ))).sum = l.length := by
  induction l with
  | nil => simp
  | cons a l ih => simp [ih, Nat.add_comm]

/-! ## Structural facts about the built graph -/

lemma mem_nodeKeys (evs : List PassEvent) (p : String) :
    p ∈ nodeKeys evs ↔ (∃ e ∈ evs, e.passer = p) ∨ ∃ e ∈ evs, e.receiver = p := by
  simp [nodeKeys, pairList, pairKey, List.mem_dedup, List.mem_append, List.mem_map]

lemma mem_pairList (evs : List PassEvent) (k : String × String) :
    k ∈ pairList evs ↔ ∃ ev ∈ evs, ev.passer = k.1 ∧ ev.receiver = k.2 := by
  simp [pairList, pairKey, List.mem_map, Prod.ext_iff]

lemma mem_buildEdges (evs : List PassEvent) (e : Edge) :
    e ∈ buildEdges evs ↔
      (e.src, e.dst) ∈ pairList evs ∧
      e.intensity = intensity evs e.src e.dst ∧
      e.distance = distanceOf (intensity evs e.src e.dst) := by
  constructor
  · intro h
    obtain ⟨k, hk, rfl⟩ := List.mem_map.mp h
    exact ⟨List.mem_dedup.mp hk, rfl, rfl⟩
  · rintro ⟨h1, h2, h3⟩
    apply List.mem_map.mpr
    refine ⟨(e.src, e.dst), List.mem_dedup.mpr h1, ?_⟩
    rw [← h3, ← h2]

lemma buildGraph_nodes_nodup (evs : List PassEvent) : (buildGraph evs).nodes.Nodup :=
  List.nodup_dedup _

lemma buildGraph_src_mem (evs : List PassEvent) :
    ∀ e ∈ (buildGraph evs).edges, e.src ∈ (buildGraph evs).nodes := by
  intro e he
  obtain ⟨h1, -, -⟩ := (mem_buildEdges evs e).mp he
  obtain ⟨ev, hev, h2, -⟩ := (mem_pairList evs (e.src, e.dst)).mp h1
  exact (mem_nodeKeys evs e.src).mpr (Or.inl ⟨ev, hev, h2⟩)

lemma buildGraph_dst_mem (evs : List PassEvent) :
    ∀ e ∈ (buildGraph evs).edges, e.dst ∈ (buildGraph evs).nodes := by
  intro e he
  obtain ⟨h1, -, -⟩ := (mem_buildEdges evs e).mp he
  obtain ⟨ev, hev, -, h2⟩ := (mem_pairList evs (e.src, e.dst)).mp h1
  exact (mem_nodeKeys evs e.dst).mpr (Or.inr ⟨ev, hev, h2⟩)

lemma nodeKeys_ne_nil (evs : List PassEvent) (h : evs ≠ []) : nodeKeys evs ≠ [] := by
  obtain ⟨e, he⟩ := List.exists_mem_of_ne_nil evs h
  exact List.ne_nil_of_mem ((mem_nodeKeys evs e.passer).mpr (Or.inl ⟨e, he, rfl⟩))

lemma intensity_eq_key_filter (evs : List PassEvent) (p r : String) :
    intensity evs p r = (evs.filter (fun e => pairKey e = (p, r))).length := by
  unfold intensity
  congr 1
  apply List.filter_congr
  intro e _
  simp [pairKey, Prod.ext_iff]

lemma sum_buildEdges_intensity (evs : List PassEvent) :
    ((buildEdges evs).map (fun e => e.intensity)).sum = evs.length := by
  rw [buildEdges, List.map_map]
  calc ((edgeKeys evs).map
        ((fun e => e.intensity) ∘ fun k =>
          (⟨k.1, k.2, intensity evs k.1 k.2, distanceOf (intensity evs k.1 k.2)⟩ : Edge))).sum
      = ((edgeKeys evs).map
          (fun k => ((evs.filter (fun e => pairKey e = k)).map (fun _ => (1 : ℕ))).sum)).sum := by
        apply congrArg List.sum
        apply List.map_congr_left
        intro k _
        show intensity evs k.1 k.2 = _
        rw [intensity_eq_key_filter, sum_map_ones]
    _ = (evs.map (fun _ => (1 : ℕ))).sum :=
        sum_filter_key pairKey _ evs (edgeKeys evs) (List.nodup_dedup _)
          (fun e he => List.mem_dedup.mpr (List.mem_map_of_mem pairKey he))
    _ = evs.length := sum_map_ones evs

/-! ## Adjacency-sum lemmas -/

lemma outQ_eq (g : Graph) (w : String) (hnd : g.nodes.Nodup)
    (hdst : ∀ e ∈ g.edges, e.dst ∈ g.nodes) (v : String) :
    outQ g w v = ((g.edges.filter (fun e => e.src = v)).map (edgeWeight w)).sum := by
  unfold outQ adjW
  exact sum_filter_key (fun e => e.dst) (edgeWeight w)
    (g.edges.filter (fun e => e.src = v)) g.nodes hnd
    (fun e he => hdst e (List.mem_of_mem_filter he))

lemma inQ_eq (g : Graph) (w : String) (hnd : g.nodes.Nodup)
    (hsrc : ∀ e ∈ g.edges, e.src ∈ g.nodes) (v : String) :
    inQ g w v = ((g.edges.filter (fun e => e.dst = v)).map (edgeWeight w)).sum := by
  unfold inQ adjW
  calc (g.nodes.map (fun u =>
        (((g.edges.filter (fun e => e.src = u)).filter (fun e => e.dst = v)).map
          (edgeWeight w)).sum)).sum
      = (g.nodes.map (fun u =>
          (((g.edges.filter (fun e => e.dst = v)).filter (fun e => e.src = u)).map
            (edgeWeight w)).sum)).sum := by
        apply congrArg List.sum
        apply List.map_congr_left
        intro u _
        rw [List.filter_comm]
    _ = _ :=
        sum_filter_key (fun e => e.src) (edgeWeight w)
          (g.edges.filter (fun e => e.dst = v)) g.nodes hnd
          (fun e he => hsrc e (List.mem_of_mem_filter he))

lemma sum_outQ (g : Graph) (w : String) (hnd : g.nodes.Nodup)
    (hsrc : ∀ e ∈ g.edges, e.src ∈ g.nodes) (hdst : ∀ e ∈ g.edges, e.dst ∈ g.nodes) :
    (g.nodes.map (fun v => outQ g w v)).sum = (g.edges.map (edgeWeight w)).sum := by
  calc (g.nodes.map (fun v => outQ g w v)).sum
      = (g.nodes.map (fun v =>
          ((g.edges.filter (fun e => e.src = v)).map (edgeWeight w)).sum)).sum := by
        apply congrArg List.sum
        apply List.map_congr_left
        intro v _
        exact outQ_eq g w hnd hdst v
    _ = _ := sum_filter_key (fun e => e.src) (edgeWeight w) g.edges g.nodes hnd hsrc

lemma sum_inQ (g : Graph) (w : String) (hnd : g.nodes.Nodup)
    (hsrc : ∀ e ∈ g.edges, e.src ∈ g.nodes) (hdst : ∀ e ∈ g.edges, e.dst ∈ g.nodes) :
    (g.nodes.map (fun v => inQ g w v)).sum = (g.edges.map (edgeWeight w)).sum := by
  calc (g.nodes.map (fun v => inQ g w v)).sum
      = (g.nodes.map (fun v =>
          ((g.edges.filter (fun e => e.dst = v)).map (edgeWeight w)).sum)).sum := by
        apply congrArg List.sum
        apply List.map_congr_left
        intro v _
        exact inQ_eq g w hnd hsrc v
    _ = _ := sum_filter_key (fun e => e.dst) (edgeWeight w) g.edges g.nodes hnd hdst

lemma edgeWeight_intensity (e : Edge) : edgeWeight "Intensity" e = (e.intensity : ℚ) := by
  unfold edgeWeight
  rw [if_pos rfl]

lemma sum_map_edgeWeight_intensity (es : List Edge) :
    (es.map (edgeWeight "Intensity")).sum = (((es.map (fun e => e.intensity)).sum : ℕ) : ℚ) := by
  induction es with
  | nil => simp
  | cons e es ih =>
    simp only [List.map_cons, List.sum_cons, edgeWeight_intensity, ih]
    push_cast
    ring

lemma truncQ_natCast (n : ℕ) : truncQ (n : ℚ) = (n : ℤ) := by
  unfold truncQ
  rw [if_pos (by positivity), Int.floor_natCast]

/-! ## Dispatch and update lemmas -/

lemma rawStrength_out (g : Graph) (w v : String) :
    rawStrength g (some "out") w v = outQ g w v := by
  unfold rawStrength
  rw [if_neg (by decide), if_pos rfl]

lemma rawStrength_in (g : Graph) (w v : String) :
    rawStrength g (some "in") w v = inQ g w v := by
  unfold rawStrength
  rw [if_pos rfl]

lemma setNodeAttrs_attr (g : Graph) (n : String) (f : String → AttrVal) (a u : String) :
    (setNodeAttrs g n f).attr a u
      = if a = n ∧ u ∈ g.nodes then some (f u) else g.attr a u := rfl

lemma setNodeAttrs_nodes (g : Graph) (n : String) (f : String → AttrVal) :
    (setNodeAttrs g n f).nodes = g.nodes := rfl

lemma setNodeAttrs_edges (g : Graph) (n : String) (f : String → AttrVal) :
    (setNodeAttrs g n f).edges = g.edges := rfl

lemma nodeStrength_of_ne_nil (g : Graph) (d : Option String) (w : String)
    (h : g.nodes ≠ []) :
    nodeStrength g d w = some (setNodeAttrs g (strengthName d)
      (fun v => .num ((strengthVal g d w v : ℤ) : ℚ))) := by
  unfold nodeStrength
  rw [if_neg h]

lemma strengthName_out : strengthName (some "out") = "Out-Strength" := rfl

lemma strengthName_in : strengthName (some "in") = "In-Strength" := rfl

lemma sumAttr_setNodeAttrs_self (g : Graph) (n : String) (fq : String → ℚ) :
    sumAttr (setNodeAttrs g n (fun v => .num (fq v))) n = (g.nodes.map fq).sum := by
  unfold sumAttr
  rw [setNodeAttrs_nodes]
  apply congrArg List.sum
  apply List.map_congr_left
  intro v hv
  rw [setNodeAttrs_attr, if_pos ⟨rfl, hv⟩]
  rfl

lemma sum_map_natCast (l : List String) (fn : String → ℕ) :
    (l.map (fun v => ((fn v : ℕ) : ℚ))).sum = ((l.map fn).sum : ℚ) := by
  induction l with
  | nil => simp
  | cons a l ih =>
    simp only [List.map_cons, List.sum_cons, ih]
    push_cast
    ring

/-! ## Claim theorems -/

/-- Claim C4: for every non-empty event collection, with `Intensity` as the
weight attribute, the sum over all nodes of the stored out-strength equals
the sum over all nodes of the stored in-strength, and both equal the number
of events in the collection. -/
theorem strength_sum_conservation (evs : List PassEvent) (h : evs ≠ []) :
    ∃ gOut gIn : Graph,
      nodeStrength (buildGraph evs) (some "out") "Intensity" = some gOut ∧
      nodeStrength (buildGraph evs) (some "in") "Intensity" = some gIn ∧
      sumAttr gOut "Out-Strength" = (evs.length : ℚ) ∧
      sumAttr gIn "In-Strength" = (evs.length : ℚ) := by
  have hne : (buildGraph evs).nodes ≠ [] := nodeKeys_ne_nil evs h
  have hnd := buildGraph_nodes_nodup evs
  have hsrc := buildGraph_src_mem evs
  have hdst := buildGraph_dst_mem evs
  refine ⟨_, _, nodeStrength_of_ne_nil _ _ _ hne, nodeStrength_of_ne_nil _ _ _ hne, ?_, ?_⟩
  · rw [strengthName_out, sumAttr_setNodeAttrs_self]
    have hout : ∀ v ∈ (buildGraph evs).nodes,
        ((strengthVal (buildGraph evs) (some "out") "Intensity" v : ℤ) : ℚ)
          = ((natOutSum (buildGraph evs) v : ℕ) : ℚ) := by
      intro v _
      unfold strengthVal natOutSum
      rw [rawStrength_out, outQ_eq _ _ hnd hdst v, sum_map_edgeWeight_intensity,
        truncQ_natCast, Int.cast_natCast]
    rw [List.map_congr_left hout, sum_map_natCast]
    have hnat : ((buildGraph evs).nodes.map (fun v =>
        (((buildGraph evs).edges.filter (fun x => x.src = v)).map
          (fun e => e.intensity)).sum)).sum = evs.length :=
      (sum_filter_key (fun e => e.src) (fun e => e.intensity) (buildGraph evs).edges
        (buildGraph evs).nodes hnd hsrc).trans (sum_buildEdges_intensity evs)
    exact_mod_cast hnat
  · rw [strengthName_in, sumAttr_setNodeAttrs_self]
    have hin : ∀ v ∈ (buildGraph evs).nodes,
        ((strengthVal (buildGraph evs) (some "in") "Intensity" v : ℤ) : ℚ)
          = ((natInSum (buildGraph evs) v : ℕ) : ℚ) := by
      intro v _
      unfold strengthVal natInSum
      rw [rawStrength_in, inQ_eq _ _ hnd hsrc v, sum_map_edgeWeight_intensity,
        truncQ_natCast, Int.cast_natCast]
    rw [List.map_congr_left hin, sum_map_natCast]
    have hnat : ((buildGraph evs).nodes.map (fun v =>
        (((buildGraph evs).edges.filter (fun x => x.dst = v)).map
          (fun e => e.intensity)).sum)).sum = evs.length :=
      (sum_filter_key (fun e => e.dst) (fun e => e.intensity) (buildGraph evs).edges
        (buildGraph evs).nodes hnd hdst).trans (sum_buildEdges_intensity evs)
    exact_mod_cast hnat

/-- Witness for C4 at scenario A (four events). -/
theorem strength_sum_conservation_w :
    ∃ gOut gIn : Graph,
      nodeStrength (buildGraph evA) (some "out") "Intensity" = some gOut ∧
      nodeStrength (buildGraph evA) (some "in") "Intensity" = some gIn ∧
      sumAttr gOut "Out-Strength" = (evA.length : ℚ) ∧
      sumAttr gIn "In-Strength" = (evA.length : ℚ) :=
  strength_sum_conservation evA (by decide)

/-- Claim C2: the empty event collection yields a graph with no nodes and no
edges, and `distance_centralities` then writes nothing for every supported
kind; but `node_strength` on that empty graph fails (its local `name` is
bound only inside the per-node loop), so the claim that every metric call
completes is a code bug. -/
theorem empty_graph_behavior (d : Option String) (w dattr : String) :
    (buildGraph []).nodes = [] ∧ (buildGraph []).edges = [] ∧
    nodeStrength (buildGraph []) d w = none ∧
    (∃ g1, distanceCentralities (buildGraph []) "Betweenness" dattr = some g1 ∧
      ∀ a u, g1.attr a u = (buildGraph []).attr a u) ∧
    (∃ g2, distanceCentralities (buildGraph []) "In-Harmonic" dattr = some g2 ∧
      ∀ a u, g2.attr a u = (buildGraph []).attr a u) ∧
    (∃ g3, distanceCentralities (buildGraph []) "Out-Harmonic" dattr = some g3 ∧
      ∀ a u, g3.attr a u = (buildGraph []).attr a u) := by
  refine ⟨rfl, rfl, rfl, ⟨_, rfl, ?_⟩, ⟨_, rfl, ?_⟩, ⟨_, rfl, ?_⟩⟩ <;>
  · intro a u
    rw [setNodeAttrs_attr, if_neg]
    rintro ⟨-, hu⟩
    simp [buildGraph, nodeKeys, pairList] at hu

lemma ev3_keys : edgeKeys ev3 = [("P1", "P2")] := by decide

lemma ev3_intensity : intensity ev3 "P1" "P2" = 3 := by decide

lemma distanceOf_three : distanceOf 3 = 3333 := by
  norm_num [distanceOf, roundTo, roundHE]

lemma distanceOf_one : distanceOf 1 = 10000 := by
  norm_num [distanceOf, roundTo, roundHE]

lemma ev3_edges : (buildGraph ev3).edges = [⟨"P1", "P2", 3, 3333⟩] := by
  show buildEdges ev3 = _
  rw [buildEdges, ev3_keys]
  simp [ev3_intensity, distanceOf_three]

/-- Claim C1 (counterexample): on three identical P1-to-P2 passes the built
edge stores a Distance different from round(10000/Intensity, 4); the code
computes round(1/3, 4) * 10000 = 3333, not 3333.3333. -/
theorem distance_claim_cex :
    ∃ e ∈ (buildGraph ev3).edges,
      e.distance ≠ roundTo 4 (10000 / (e.intensity : ℚ)) := by
  refine ⟨⟨"P1", "P2", 3, 3333⟩, by simp [ev3_edges], ?_⟩
  show (3333 : ℚ) ≠ roundTo 4 (10000 / ((3 : ℕ) : ℚ))
  norm_num [roundTo, roundHE]

/-- Claim C1 (amended): every edge of the built graph stores
Distance = round(1/Intensity, 4) * 10000 (exact-rational model); for
intensity 3 this is 3333 and for intensity 1 it is 10000. -/
theorem distance_formula (evs : List PassEvent) (e : Edge)
    (he : e ∈ (buildGraph evs).edges) :
    e.distance = roundTo 4 (1 / (e.intensity : ℚ)) * 10000 ∧
    distanceOf 3 = 3333 ∧ distanceOf 1 = 10000 := by
  obtain ⟨-, h2, h3⟩ := (mem_buildEdges evs e).mp he
  refine ⟨?_, distanceOf_three, distanceOf_one⟩
  rw [h3, h2]
  rfl

/-- Witness for C1's amended claim at the intensity-3 edge of `ev3`. -/
theorem distance_formula_w :
    (⟨"P1", "P2", 3, 3333⟩ : Edge).distance
        = roundTo 4 (1 / ((⟨"P1", "P2", 3, 3333⟩ : Edge).intensity : ℚ)) * 10000 ∧
    distanceOf 3 = 3333 ∧ distanceOf 1 = 10000 :=
  distance_formula ev3 ⟨"P1", "P2", 3, 3333⟩ (by simp [ev3_edges])

/-- Claim C5: the built edge set has exactly one edge per ordered
(passer, receiver) pair occurring in some event, the intensity of an edge is
the number of events with that ordered pair (hence at least 1), and the edge
set is invariant under permutation of the input events. -/
theorem edge_aggregation (evs evs2 : List PassEvent) (hperm : evs.Perm evs2) :
    ((buildGraph evs).edges.map (fun e => (e.src, e.dst))).Nodup ∧
    (∀ p r : String, (∃ e ∈ (buildGraph evs).edges, e.src = p ∧ e.dst = r) ↔
      ∃ ev ∈ evs, ev.passer = p ∧ ev.receiver = r) ∧
    (∀ e ∈ (buildGraph evs).edges,
      e.intensity
          = (evs.filter (fun ev => ev.passer = e.src ∧ ev.receiver = e.dst)).length ∧
      1 ≤ e.intensity) ∧
    (buildGraph evs).edges.toFinset = (buildGraph evs2).edges.toFinset := by
  have hkeys : (buildGraph evs).edges.map (fun e => (e.src, e.dst)) = edgeKeys evs := by
    show (buildEdges evs).map (fun e => (e.src, e.dst)) = edgeKeys evs
    rw [buildEdges, List.map_map]
    exact List.map_id _
  refine ⟨hkeys ▸ List.nodup_dedup _, ?_, ?_, ?_⟩
  · intro p r
    constructor
    · rintro ⟨e, he, h1, h2⟩
      obtain ⟨hpair, -, -⟩ := (mem_buildEdges evs e).mp he
      obtain ⟨ev, hev, hp, hr⟩ := (mem_pairList evs _).mp hpair
      exact ⟨ev, hev, hp.trans h1, hr.trans h2⟩
    · rintro ⟨ev, hev, hp, hr⟩
      refine ⟨⟨p, r, intensity evs p r, distanceOf (intensity evs p r)⟩, ?_, rfl, rfl⟩
      exact (mem_buildEdges evs _).mpr
        ⟨(mem_pairList evs _).mpr ⟨ev, hev, hp, hr⟩, rfl, rfl⟩
  · intro e he
    obtain ⟨hpair, h2, -⟩ := (mem_buildEdges evs e).mp he
    refine ⟨h2, ?_⟩
    obtain ⟨ev, hev, hp, hr⟩ := (mem_pairList evs _).mp hpair
    have hmem : ev ∈ evs.filter (fun x => x.passer = e.src ∧ x.receiver = e.dst) :=
      List.mem_filter.mpr ⟨hev, by simp [hp, hr]⟩
    rw [h2]
    exact List.length_pos_of_mem hmem
  · have hint : ∀ p r, intensity evs p r = intensity evs2 p r := by
      intro p r
      exact (hperm.filter _).length_eq
    have hmemp : ∀ k : String × String, k ∈ pairList evs ↔ k ∈ pairList evs2 :=
      fun k => (hperm.map pairKey).mem_iff
    apply Finset.ext
    intro e
    simp only [List.mem_toFinset]
    show e ∈ buildEdges evs ↔ e ∈ buildEdges evs2
    rw [mem_buildEdges, mem_buildEdges, hint e.src e.dst, hmemp (e.src, e.dst)]

/-- Witness for C5 at scenario A and a permutation of it. -/
theorem edge_aggregation_w :
    ((buildGraph evA).edges.map (fun e => (e.src, e.dst))).Nodup ∧
    (∀ p r : String, (∃ e ∈ (buildGraph evA).edges, e.src = p ∧ e.dst = r) ↔
      ∃ ev ∈ evA, ev.passer = p ∧ ev.receiver = r) ∧
    (∀ e ∈ (buildGraph evA).edges,
      e.intensity
          = (evA.filter (fun ev => ev.passer = e.src ∧ ev.receiver = e.dst)).length ∧
      1 ≤ e.intensity) ∧
    (buildGraph evA).edges.toFinset = (buildGraph evA2).edges.toFinset :=
  edge_aggregation evA evA2 (by decide)

lemma node_iff_edge (evs : List PassEvent) (p : String) :
    p ∈ nodeKeys evs ↔ ∃ e ∈ buildEdges evs, p = e.src ∨ p = e.dst := by
  rw [mem_nodeKeys]
  constructor
  · rintro (⟨ev, hev, hp⟩ | ⟨ev, hev, hp⟩)
    · refine ⟨⟨ev.passer, ev.receiver, intensity evs ev.passer ev.receiver,
        distanceOf (intensity evs ev.passer ev.receiver)⟩, ?_, Or.inl hp.symm⟩
      exact (mem_buildEdges evs _).mpr
        ⟨(mem_pairList evs _).mpr ⟨ev, hev, rfl, rfl⟩, rfl, rfl⟩
    · refine ⟨⟨ev.passer, ev.receiver, intensity evs ev.passer ev.receiver,
        distanceOf (intensity evs ev.passer ev.receiver)⟩, ?_, Or.inr hp.symm⟩
      exact (mem_buildEdges evs _).mpr
        ⟨(mem_pairList evs _).mpr ⟨ev, hev, rfl, rfl⟩, rfl, rfl⟩
  · rintro ⟨e, he, hp | hp⟩
    · obtain ⟨h1, -, -⟩ := (mem_buildEdges evs e).mp he
      obtain ⟨ev, hev, hpp, -⟩ := (mem_pairList evs _).mp h1
      exact Or.inl ⟨ev, hev, hpp.trans hp.symm⟩
    · obtain ⟨h1, -, -⟩ := (mem_buildEdges evs e).mp he
      obtain ⟨ev, hev, -, hpp⟩ := (mem_pairList evs _).mp h1
      exact Or.inr ⟨ev, hev, hpp.trans hp.symm⟩

lemma samplesX_ne_nil (evs : List PassEvent) (p : String) (h : p ∈ nodeKeys evs) :
    samplesX evs p ≠ [] := by
  rcases (mem_nodeKeys evs p).mp h with ⟨ev, hev, hp⟩ | ⟨ev, hev, hp⟩
  · exact List.ne_nil_of_mem (List.mem_append_left _
      (List.mem_map_of_mem _ (List.mem_filter.mpr ⟨hev, by simp [hp]⟩)))
  · exact List.ne_nil_of_mem (List.mem_append_right _
      (List.mem_map_of_mem _ (List.mem_filter.mpr ⟨hev, by simp [hp]⟩)))

lemma samplesY_ne_nil (evs : List PassEvent) (p : String) (h : p ∈ nodeKeys evs) :
    samplesY evs p ≠ [] := by
  rcases (mem_nodeKeys evs p).mp h with ⟨ev, hev, hp⟩ | ⟨ev, hev, hp⟩
  · exact List.ne_nil_of_mem (List.mem_append_left _
      (List.mem_map_of_mem _ (List.mem_filter.mpr ⟨hev, by simp [hp]⟩)))
  · exact List.ne_nil_of_mem (List.mem_append_right _
      (List.mem_map_of_mem _ (List.mem_filter.mpr ⟨hev, by simp [hp]⟩)))

/-- Claim C6: a node's stored average position is, per axis, the mean of the
origin coordinates of the events it passes together with the destination
coordinates of the events it receives, rounded to 2 decimals (there is at
least one such sample), and a node is in the graph exactly when it
participates in at least one edge. -/
theorem avg_position (evs : List PassEvent) (p : String)
    (hp : p ∈ (buildGraph evs).nodes ∨
      ∃ e ∈ (buildGraph evs).edges, p = e.src ∨ p = e.dst) :
    p ∈ (buildGraph evs).nodes ∧
    (∃ e ∈ (buildGraph evs).edges, p = e.src ∨ p = e.dst) ∧
    samplesX evs p ≠ [] ∧ samplesY evs p ≠ [] ∧
    (buildGraph evs).attr "Avg Pos" p
      = some (.pos (roundTo 2 (meanQ (samplesX evs p)))
          (roundTo 2 (meanQ (samplesY evs p)))) := by
  have hmem : p ∈ nodeKeys evs := by
    rcases hp with h | h
    · exact h
    · exact (node_iff_edge evs p).mpr h
  refine ⟨hmem, (node_iff_edge evs p).mp hmem,
    samplesX_ne_nil evs p hmem, samplesY_ne_nil evs p hmem, ?_⟩
  show (if "Avg Pos" = "Avg Pos" ∧ p ∈ nodeKeys evs
    then some (AttrVal.pos (avgX evs p) (avgY evs p)) else none) = _
  rw [if_pos ⟨rfl, hmem⟩]
  rfl

/-- Witness for C6 at node P1 of scenario A. -/
theorem avg_position_w :
    "P1" ∈ (buildGraph evA).nodes ∧
    (∃ e ∈ (buildGraph evA).edges, "P1" = e.src ∨ "P1" = e.dst) ∧
    samplesX evA "P1" ≠ [] ∧ samplesY evA "P1" ≠ [] ∧
    (buildGraph evA).attr "Avg Pos" "P1"
      = some (.pos (roundTo 2 (meanQ (samplesX evA "P1")))
          (roundTo 2 (meanQ (samplesY evA "P1")))) :=
  avg_position evA "P1" (Or.inl (by decide))

/-! ## Centrality dispatch lemmas -/

lemma dc_bet (g : Graph) (dattr : String) :
    distanceCentralities g "Betweenness" dattr
      = some (setNodeAttrs g "Betweenness"
          (fun v => .num (roundTo 4 (betweenness g dattr v)))) := by
  unfold distanceCentralities
  rw [if_pos rfl]

lemma dc_in (g : Graph) (dattr : String) :
    distanceCentralities g "In-Harmonic" dattr
      = some (setNodeAttrs g "In-Harmonic"
          (fun v => .num (roundTo 4 (harmonic g dattr v)))) := by
  unfold distanceCentralities
  rw [if_neg (by decide), if_pos rfl]

lemma dc_out (g : Graph) (dattr : String) :
    distanceCentralities g "Out-Harmonic" dattr
      = some (setNodeAttrs g "Out-Harmonic"
          (fun v => .num (roundTo 4 (harmonic (gReverse g) dattr v)))) := by
  unfold distanceCentralities
  rw [if_neg (by decide), if_neg (by decide), if_pos rfl]

lemma dc_none (g : Graph) (kind dattr : String) (h1 : kind ≠ "Betweenness")
    (h2 : kind ≠ "In-Harmonic") (h3 : kind ≠ "Out-Harmonic") :
    distanceCentralities g kind dattr = none := by
  unfold distanceCentralities
  rw [if_neg h1, if_neg h2, if_neg h3]

lemma afterAttr_some (g : Graph) (a v : String) :
    afterAttr (some g) a v = g.attr a v := rfl

lemma setNodeAttrs_other (g : Graph) (n : String) (f : String → AttrVal)
    (a u : String) (ha : a ≠ n) :
    (setNodeAttrs g n f).attr a u = g.attr a u := by
  rw [setNodeAttrs_attr, if_neg (fun hc => ha hc.1)]

lemma setNodeAttrs_twice (g : Graph) (n : String) (f f2 : String → AttrVal)
    (hf : ∀ u ∈ g.nodes, f2 u = f u) (a u : String) :
    (setNodeAttrs (setNodeAttrs g n f) n f2).attr a u
      = (setNodeAttrs g n f).attr a u := by
  rw [setNodeAttrs_attr, setNodeAttrs_attr]
  by_cases hc : a = n ∧ u ∈ g.nodes
  · rw [if_pos ⟨hc.1, hc.2⟩, if_pos hc, hf u hc.2]
  · rw [if_neg (fun hcc => hc ⟨hcc.1, hcc.2⟩), if_neg hc]

/-- Claim C7: the stored Out-Harmonic value is the harmonic closeness of the
node on the edge-reversed graph (whose edges carry the same attribute data,
endpoints swapped, nothing recomputed), rounded to 4 decimals; In-Harmonic
and Betweenness values are likewise rounded to 4 decimals before storage. -/
theorem centrality_semantics (g : Graph) (dattr v : String) (hv : v ∈ g.nodes) :
    afterAttr (distanceCentralities g "Out-Harmonic" dattr) "Out-Harmonic" v
        = some (.num (roundTo 4 (harmonic (gReverse g) dattr v))) ∧
    afterAttr (distanceCentralities g "In-Harmonic" dattr) "In-Harmonic" v
        = some (.num (roundTo 4 (harmonic g dattr v))) ∧
    afterAttr (distanceCentralities g "Betweenness" dattr) "Betweenness" v
        = some (.num (roundTo 4 (betweenness g dattr v))) ∧
    (∀ e : Edge, e ∈ g.edges ↔
      (⟨e.dst, e.src, e.intensity, e.distance⟩ : Edge) ∈ (gReverse g).edges) := by
  refine ⟨?_, ?_, ?_, ?_⟩
  · rw [dc_out, afterAttr_some, setNodeAttrs_attr, if_pos ⟨rfl, hv⟩]
  · rw [dc_in, afterAttr_some, setNodeAttrs_attr, if_pos ⟨rfl, hv⟩]
  · rw [dc_bet, afterAttr_some, setNodeAttrs_attr, if_pos ⟨rfl, hv⟩]
  · intro e
    show _ ↔ _ ∈ g.edges.map (fun x => ({ x with src := x.dst, dst := x.src } : Edge))
    rw [List.mem_map]
    constructor
    · intro he
      exact ⟨e, he, rfl⟩
    · rintro ⟨a, ha, hae⟩
      injection hae with h1 h2 h3 h4
      have : a = e := by
        cases a
        cases e
        simp_all
      exact this ▸ ha

/-- Witness for C7 at node P1 of scenario A with the Distance attribute. -/
theorem centrality_semantics_w :
    afterAttr (distanceCentralities gA "Out-Harmonic" "Distance") "Out-Harmonic" "P1"
        = some (.num (roundTo 4 (harmonic (gReverse gA) "Distance" "P1"))) ∧
    afterAttr (distanceCentralities gA "In-Harmonic" "Distance") "In-Harmonic" "P1"
        = some (.num (roundTo 4 (harmonic gA "Distance" "P1"))) ∧
    afterAttr (distanceCentralities gA "Betweenness" "Distance") "Betweenness" "P1"
        = some (.num (roundTo 4 (betweenness gA "Distance" "P1"))) ∧
    (∀ e : Edge, e ∈ gA.edges ↔
      (⟨e.dst, e.src, e.intensity, e.distance⟩ : Edge) ∈ (gReverse gA).edges) :=
  centrality_semantics gA "Distance" "P1" (by decide)

/-- Claim C8: running the same metric call twice in succession on an
otherwise unmodified graph stores the same attribute values the second time
as the first, for both node_strength and distance_centralities. -/
theorem metrics_idempotent (g : Graph) (d : Option String) (w kind dattr : String)
    (g1 g2 : Graph)
    (h1 : nodeStrength g d w = some g1)
    (h2 : distanceCentralities g kind dattr = some g2) :
    (∃ g3, nodeStrength g1 d w = some g3 ∧ ∀ a u, g3.attr a u = g1.attr a u) ∧
    (∃ g4, distanceCentralities g2 kind dattr = some g4 ∧
      ∀ a u, g4.attr a u = g2.attr a u) := by
  constructor
  · by_cases hg : g.nodes = []
    · unfold nodeStrength at h1
      rw [if_pos hg] at h1
      exact Option.noConfusion h1
    · rw [nodeStrength_of_ne_nil g d w hg] at h1
      injection h1 with h1
      subst h1
      refine ⟨_, nodeStrength_of_ne_nil _ d w hg, ?_⟩
      exact setNodeAttrs_twice g (strengthName d) _ _ (fun u _ => rfl)
  · by_cases hk1 : kind = "Betweenness"
    · subst hk1
      rw [dc_bet] at h2
      injection h2 with h2
      subst h2
      refine ⟨_, dc_bet _ dattr, ?_⟩
      exact setNodeAttrs_twice g "Betweenness" _ _ (fun u _ => rfl)
    · by_cases hk2 : kind = "In-Harmonic"
      · subst hk2
        rw [dc_in] at h2
        injection h2 with h2
        subst h2
        refine ⟨_, dc_in _ dattr, ?_⟩
        exact setNodeAttrs_twice g "In-Harmonic" _ _ (fun u _ => rfl)
      · by_cases hk3 : kind = "Out-Harmonic"
        · subst hk3
          rw [dc_out] at h2
          injection h2 with h2
          subst h2
          refine ⟨_, dc_out _ dattr, ?_⟩
          exact setNodeAttrs_twice g "Out-Harmonic" _ _ (fun u _ => rfl)
        · rw [dc_none g kind dattr hk1 hk2 hk3] at h2
          exact Option.noConfusion h2

/-- Witness for C8: out-strength and betweenness recomputed on scenario A's
annotated graph store the same values again. -/
theorem metrics_idempotent_w :
    (∃ g3, nodeStrength (setNodeAttrs gA "Out-Strength" fOutA) (some "out") "Intensity"
        = some g3 ∧
      ∀ a u, g3.attr a u = (setNodeAttrs gA "Out-Strength" fOutA).attr a u) ∧
    (∃ g4, distanceCentralities (setNodeAttrs gA "Betweenness" fBetA) "Betweenness"
        "Distance" = some g4 ∧
      ∀ a u, g4.attr a u = (setNodeAttrs gA "Betweenness" fBetA).attr a u) :=
  metrics_idempotent gA (some "out") "Intensity" "Betweenness" "Distance"
    (setNodeAttrs gA "Out-Strength" fOutA) (setNodeAttrs gA "Betweenness" fBetA)
    (nodeStrength_of_ne_nil gA (some "out") "Intensity" (by decide)) (dc_bet gA "Distance")

/-- Claim C9: a successful metric call mutates only the single node
attribute named for that metric; the node list, the edge records (with their
attributes) and every node attribute stored under any other name are
unchanged. -/
theorem metrics_frame (g : Graph) (d : Option String) (w kind dattr : String)
    (g1 g2 : Graph)
    (h1 : nodeStrength g d w = some g1)
    (h2 : distanceCentralities g kind dattr = some g2) :
    (g1.nodes = g.nodes ∧ g1.edges = g.edges ∧
      ∀ a u, a ≠ strengthName d → g1.attr a u = g.attr a u) ∧
    (g2.nodes = g.nodes ∧ g2.edges = g.edges ∧
      ∀ a u, a ≠ kind → g2.attr a u = g.attr a u) := by
  constructor
  · by_cases hg : g.nodes = []
    · unfold nodeStrength at h1
      rw [if_pos hg] at h1
      exact Option.noConfusion h1
    · rw [nodeStrength_of_ne_nil g d w hg] at h1
      injection h1 with h1
      subst h1
      exact ⟨rfl, rfl, fun a u ha => setNodeAttrs_other g _ _ a u ha⟩
  · by_cases hk1 : kind = "Betweenness"
    · subst hk1
      rw [dc_bet] at h2
      injection h2 with h2
      subst h2
      exact ⟨rfl, rfl, fun a u ha => setNodeAttrs_other g _ _ a u ha⟩
    · by_cases hk2 : kind = "In-Harmonic"
      · subst hk2
        rw [dc_in] at h2
        injection h2 with h2
        subst h2
        exact ⟨rfl, rfl, fun a u ha => setNodeAttrs_other g _ _ a u ha⟩
      · by_cases hk3 : kind = "Out-Harmonic"
        · subst hk3
          rw [dc_out] at h2
          injection h2 with h2
          subst h2
          exact ⟨rfl, rfl, fun a u ha => setNodeAttrs_other g _ _ a u ha⟩
        · rw [dc_none g kind dattr hk1 hk2 hk3] at h2
          exact Option.noConfusion h2

/-- Witness for C9 on scenario A: out-strength and betweenness writes leave
all other attributes, the nodes and the edges unchanged. -/
theorem metrics_frame_w :
    ((setNodeAttrs gA "Out-Strength" fOutA).nodes = gA.nodes ∧
      (setNodeAttrs gA "Out-Strength" fOutA).edges = gA.edges ∧
      ∀ a u, a ≠ strengthName (some "out") →
        (setNodeAttrs gA "Out-Strength" fOutA).attr a u = gA.attr a u) ∧
    ((setNodeAttrs gA "Betweenness" fBetA).nodes = gA.nodes ∧
      (setNodeAttrs gA "Betweenness" fBetA).edges = gA.edges ∧
      ∀ a u, a ≠ "Betweenness" →
        (setNodeAttrs gA "Betweenness" fBetA).attr a u = gA.attr a u) :=
  metrics_frame gA (some "out") "Intensity" "Betweenness" "Distance"
    (setNodeAttrs gA "Out-Strength" fOutA) (setNodeAttrs gA "Betweenness" fBetA)
    (nodeStrength_of_ne_nil gA (some "out") "Intensity" (by decide)) (dc_bet gA "Distance")

/-- Claim C10: node_strength stores, for every direction and weight
attribute, the integer truncation toward zero of the adjacency-matrix sum;
any fractional part of the exact sum is discarded. -/
theorem strength_truncation (g : Graph) (d : Option String) (w v : String)
    (hv : v ∈ g.nodes) :
    ∃ g1, nodeStrength g d w = some g1 ∧
      ∃ z : ℤ, g1.attr (strengthName d) v = some (.num (z : ℚ)) ∧
        (0 ≤ rawStrength g d w v →
          (z : ℚ) ≤ rawStrength g d w v ∧ rawStrength g d w v < (z : ℚ) + 1) ∧
        (rawStrength g d w v < 0 →
          rawStrength g d w v ≤ (z : ℚ) ∧ (z : ℚ) - 1 < rawStrength g d w v) := by
  have hne : g.nodes ≠ [] := List.ne_nil_of_mem hv
  refine ⟨_, nodeStrength_of_ne_nil g d w hne, strengthVal g d w v, ?_, ?_, ?_⟩
  · rw [setNodeAttrs_attr, if_pos ⟨rfl, hv⟩]
  · intro hq
    unfold strengthVal truncQ
    rw [if_pos hq]
    exact ⟨Int.floor_le _, Int.lt_floor_add_one _⟩
  · intro hq
    unfold strengthVal truncQ
    rw [if_neg (not_le.mpr hq)]
    refine ⟨Int.le_ceil _, ?_⟩
    have := Int.ceil_lt_add_one (rawStrength g d w v)
    linarith

lemma evA_keys : edgeKeys evA = [("P1", "P2"), ("P2", "P1")] := by decide

lemma evA_int1 : intensity evA "P1" "P2" = 3 := by decide

lemma evA_int2 : intensity evA "P2" "P1" = 1 := by decide

lemma gA_edges : gA.edges = [⟨"P1", "P2", 3, 3333⟩, ⟨"P2", "P1", 1, 10000⟩] := by
  show buildEdges evA = _
  rw [buildEdges, evA_keys]
  simp [evA_int1, evA_int2, distanceOf_three, distanceOf_one]

lemma gA_nodes : gA.nodes = ["P2", "P1"] := by decide

lemma gA_inQ : inQ gA "Intensity" "P1" = 1 := by
  unfold inQ adjW
  rw [gA_nodes, gA_edges]
  simp +decide [edgeWeight]

lemma gA_outQ : outQ gA "Intensity" "P1" = 3 := by
  unfold outQ adjW
  rw [gA_nodes, gA_edges]
  simp +decide [edgeWeight]

/-- Claim C3 (counterexample): node_strength with the unrecognized direction
"bogus" does not fail; it silently takes the else branch, computing total
strength and storing it under "Strength" (value 4 for P1 in scenario A). -/
theorem unrecognized_direction_no_error :
    ∃ g1, nodeStrength gA (some "bogus") "Intensity" = some g1 ∧
      g1.attr "Strength" "P1" = some (.num 4) := by
  refine ⟨_, nodeStrength_of_ne_nil gA (some "bogus") "Intensity" (by decide), ?_⟩
  have hname : strengthName (some "bogus") = "Strength" := by
    unfold strengthName
    rw [if_neg (by decide), if_neg (by decide)]
  rw [setNodeAttrs_attr, hname, if_pos ⟨rfl, by decide⟩]
  have hval : strengthVal gA (some "bogus") "Intensity" "P1" = 4 := by
    unfold strengthVal rawStrength
    rw [if_neg (by decide), if_neg (by decide), gA_inQ, gA_outQ]
    norm_num [truncQ]
  rw [hval]
  norm_num

/-- Claim C3 (amended): distance_centralities with an unrecognized kind
fails before writing anything (an unbound-local error, not a named
UnsupportedMetric error), leaving the graph untouched; node_strength with an
unrecognized direction does not fail at all: it falls back to the total
(None) branch, storing truncated in+out sums under "Strength" and leaving
every other attribute unchanged. -/
theorem unsupported_metric_behavior (g : Graph) (kind dattr : String)
    (d : Option String) (w : String)
    (hk1 : kind ≠ "Betweenness") (hk2 : kind ≠ "In-Harmonic")
    (hk3 : kind ≠ "Out-Harmonic")
    (hd1 : d ≠ some "in") (hd2 : d ≠ some "out") (hne : g.nodes ≠ []) :
    distanceCentralities g kind dattr = none ∧
    ∃ g1, nodeStrength g d w = some g1 ∧
      (∀ u ∈ g.nodes,
        g1.attr "Strength" u
          = some (.num ((truncQ (inQ g w u + outQ g w u) : ℤ) : ℚ))) ∧
      ∀ a u, a ≠ "Strength" → g1.attr a u = g.attr a u := by
  have hname : strengthName d = "Strength" := by
    unfold strengthName
    rw [if_neg hd1, if_neg hd2]
  refine ⟨dc_none g kind dattr hk1 hk2 hk3,
    _, nodeStrength_of_ne_nil g d w hne, ?_, ?_⟩
  · intro u hu
    rw [setNodeAttrs_attr, hname, if_pos ⟨rfl, hu⟩]
    have hraw : rawStrength g d w u = inQ g w u + outQ g w u := by
      unfold rawStrength
      rw [if_neg hd1, if_neg hd2]
    unfold strengthVal
    rw [hraw]
  · intro a u ha
    rw [setNodeAttrs_attr, if_neg (fun hc => ha (hc.1.trans hname))]

/-- Witness for C3's amended claim on scenario A with kind "unknown" and
direction "bogus". -/
theorem unsupported_metric_behavior_w :
    distanceCentralities gA "unknown" "Distance" = none ∧
    ∃ g1, nodeStrength gA (some "bogus") "Intensity" = some g1 ∧
      (∀ u ∈ gA.nodes,
        g1.attr "Strength" u
          = some (.num ((truncQ (inQ gA "Intensity" u + outQ gA "Intensity" u) : ℤ) : ℚ))) ∧
      ∀ a u, a ≠ "Strength" → g1.attr a u = gA.attr a u :=
  unsupported_metric_behavior gA "unknown" "Distance" (some "bogus") "Intensity"
    (by decide) (by decide) (by decide) (by decide) (by decide) (by decide)

/-- Witness for C10 on the graph `gB`, whose single edge has the
non-integral Distance 5/2. -/
theorem strength_truncation_w :
    ∃ g1, nodeStrength gB (some "out") "Distance" = some g1 ∧
      ∃ z : ℤ, g1.attr (strengthName (some "out")) "A" = some (.num (z : ℚ)) ∧
        (0 ≤ rawStrength gB (some "out") "Distance" "A" →
          (z : ℚ) ≤ rawStrength gB (some "out") "Distance" "A" ∧
          rawStrength gB (some "out") "Distance" "A" < (z : ℚ) + 1) ∧
        (rawStrength gB (some "out") "Distance" "A" < 0 →
          rawStrength gB (some "out") "Distance" "A" ≤ (z : ℚ) ∧
          (z : ℚ) - 1 < rawStrength gB (some "out") "Distance" "A") :=
  strength_truncation gB (some "out") "Distance" "A" (by decide)

end PassNets
